import Mathlib

/-!
Verification of the MEDimage processing core (compute_box.py, get_polygon_mask.py)
against its natural-language specification.

The two source files under verification are
`src/MEDimage/processing/compute_box.py` and
`src/MEDimage/processing/get_polygon_mask.py`.  Their helpers
(`utils/imref.py`, `utils/mode.py`, `utils/inpolygon.py`,
`processing/compute_bounding_box.py`) are not part of the sources, so they
are modelled from the specification; every such definition carries a doc
comment starting with `Modelled from the spec:`.

Conventions of the shallow embedding:
* numpy float arrays become total functions `ℕ → ℕ → ℕ → ℚ` paired with a
  shape (`Arr3`); machine floats become exact rationals;
* Python exceptions become `Except` errors;
* numpy basic slicing (which clamps, never raises) is modelled by `pyBound`;
* `np.round` is round-half-to-even, `astype(int)` truncates toward zero.
-/

/-- A 3-D array: a shape together with a total lookup function (entries
outside the shape are irrelevant, matching numpy views read in range). -/
structure Arr3 (α : Type) where
  n0 : ℕ
  n1 : ℕ
  n2 : ℕ
  data : ℕ → ℕ → ℕ → α

/-- Modelled from the spec: `utils/imref.py` (the `imref3d` class) is not in
`src/`.  Per spec §3, an `imref3d` value stores the voxel counts
(`ImageSize`), the per-axis physical spacing (`PixelExtentInWorld{X,Y,Z}`)
and the world limits; only the lower world limit is stored here, the upper
limit being derived (`max = min + imageSize*pixelExtent`, spec §3). -/
structure Imref3d where
  imageSize : ℕ × ℕ × ℕ
  pixelExtentX : ℚ
  pixelExtentY : ℚ
  pixelExtentZ : ℚ
  xWorldMin : ℚ
  yWorldMin : ℚ
  zWorldMin : ℚ

/-- Modelled from the spec: `worldToIntrinsic` of the missing
`utils/imref.py`, x axis.  Spec §4.1: `i = (x − worldLimits.X.min)/pixelExtentX + 0.5`. -/
def worldToIntrinsicX (R : Imref3d) (x : ℚ) : ℚ :=
  (x - R.xWorldMin) / R.pixelExtentX + 1/2

/-- Modelled from the spec: `worldToIntrinsic`, y axis (spec §4.1). -/
def worldToIntrinsicY (R : Imref3d) (y : ℚ) : ℚ :=
  (y - R.yWorldMin) / R.pixelExtentY + 1/2

/-- Modelled from the spec: `worldToIntrinsic`, z axis (spec §4.1). -/
def worldToIntrinsicZ (R : Imref3d) (z : ℚ) : ℚ :=
  (z - R.zWorldMin) / R.pixelExtentZ + 1/2

/-- Modelled from the spec: `intrinsicToWorld` of the missing
`utils/imref.py`, x axis.  Spec §4.1: `x = worldLimits.X.min + (i − 0.5) × pixelExtentX`. -/
def intrinsicToWorldX (R : Imref3d) (i : ℚ) : ℚ :=
  R.xWorldMin + (i - 1/2) * R.pixelExtentX

/-- Modelled from the spec: `intrinsicToWorld`, y axis (spec §4.1). -/
def intrinsicToWorldY (R : Imref3d) (j : ℚ) : ℚ :=
  R.yWorldMin + (j - 1/2) * R.pixelExtentY

/-- Modelled from the spec: `intrinsicToWorld`, z axis (spec §4.1). -/
def intrinsicToWorldZ (R : Imref3d) (k : ℚ) : ℚ :=
  R.zWorldMin + (k - 1/2) * R.pixelExtentZ

/-- The alternative zero-based voxel-center convention
`x = min + (i + 0.5) × extent` (first voxel center at intrinsic index 0).
Used only to state the amended form of the world-preservation claim, for
comparison with the spec's one-based formula `intrinsicToWorldX`. -/
def intrinsicToWorldX0 (R : Imref3d) (i : ℚ) : ℚ :=
  R.xWorldMin + (i + 1/2) * R.pixelExtentX

/-- Zero-based convention, y axis (comparison definition, see `intrinsicToWorldX0`). -/
def intrinsicToWorldY0 (R : Imref3d) (j : ℚ) : ℚ :=
  R.yWorldMin + (j + 1/2) * R.pixelExtentY

/-- Zero-based convention, z axis (comparison definition, see `intrinsicToWorldX0`). -/
def intrinsicToWorldZ0 (R : Imref3d) (k : ℚ) : ℚ :=
  R.zWorldMin + (k + 1/2) * R.pixelExtentZ

/-- `np.round`: round half to even (numpy/IEEE semantics). -/
def roundHalfEven (q : ℚ) : ℤ :=
  let f := ⌊q⌋
  if q - f < 1/2 then f
  else if 1/2 < q - f then f + 1
  else if f % 2 = 0 then f else f + 1

/-- `astype(int)` on a float: truncation toward zero. -/
def truncToInt (q : ℚ) : ℤ :=
  if 0 ≤ q then ⌊q⌋ else -⌊-q⌋

/-- Index of the first occurrence of `pat` in `s` (Python `str.find`),
`none` when `pat` does not occur. -/
def findSub (s pat : List Char) : Option ℕ :=
  if pat.isPrefixOf s then some 0
  else
    match s with
    | [] => none
    | _ :: t => (findSub t pat).map (· + 1)

/-- Python's `pat in s` substring test. -/
def containsSub (s pat : List Char) : Bool :=
  (findSub s pat).isSome

/-- Numeric value of a list of decimal digits. -/
def natVal (ds : List Char) : ℕ :=
  ds.foldl (fun n c => 10 * n + (c.toNat - 48)) 0

/-- Python `float()` restricted to the plain nonnegative decimal literals
(`digits`, `digits.digits`, `digits.`, `.digits`) that the crop-string
grammar of spec §6 produces; anything else raises `ValueError` (`none`). -/
def parseDecimal (cs : List Char) : Option ℚ :=
  let intPart := cs.takeWhile Char.isDigit
  let rest := cs.dropWhile Char.isDigit
  match rest with
  | [] => if intPart = [] then none else some (natVal intPart)
  | c :: fracPart =>
    if c = '.' ∧ fracPart.all Char.isDigit ∧ (intPart ≠ [] ∨ fracPart ≠ []) then
      some ((natVal intPart : ℚ) + (natVal fracPart : ℚ) / (10 : ℚ) ^ fracPart.length)
    else none

/-- The characters of the token `"box"`. -/
def boxChars : List Char := [ 'b', 'o', 'x' ]

/-- The characters of the token `"full"`. -/
def fullChars : List Char := [ 'f', 'u', 'l', 'l' ]

/-- Errors of `compute_box` (Python exceptions / the unbound-variable slip). -/
inductive CBErr where
  /-- `compute_bounding_box` on an all-zero mask (spec §7 EmptyROI). -/
  | emptyROI : CBErr
  /-- `float()` failing to parse the numeric part of the crop string. -/
  | valueError : CBErr
  /-- `UnboundLocalError`: `new_spatial_ref` never assigned before `return`. -/
  | unboundLocal : CBErr
  /-- the clamp/shrink `while` loop of `compute_box` never exiting. -/
  | infiniteLoop : CBErr
deriving DecidableEq

/-- The crop specification as decoded by `compute_box` from the string:
`tight` for the exact string `"box"`, `margin n` for `"box<number>"`
(lines 55-57 of compute_box.py), `factor f` for `"<number>box"`
(lines 58-62). -/
inductive CropSpec where
  | tight : CropSpec
  | margin (n : ℤ) : CropSpec
  | factor (f : ℚ) : CropSpec
deriving DecidableEq

/-- The string-decoding part of `compute_box` (compute_box.py lines 48-62):
`comp = box_string == "box"`; otherwise the number after a leading `"box"`
is a voxel margin, and the number before `"box"` is a size factor. -/
def parseBoxSpec (s : List Char) : Except CBErr CropSpec :=
  if s = boxChars then .ok .tight
  else
    match findSub s boxChars with
    | none => .error .unboundLocal
    | some 0 =>
      match parseDecimal (s.drop 3) with
      | none => .error .valueError
      | some q => .ok (.margin (truncToInt q))
    | some ind =>
      match parseDecimal (s.take ind) with
      | none => .error .valueError
      | some q => .ok (.factor q)

/-- Modelled from the spec: `processing/compute_bounding_box.py` is not in
`src/`.  Spec §4.5: list every in-range set voxel of the mask. -/
def idxList (roi : Arr3 Bool) : List (ℕ × ℕ × ℕ) :=
  (List.range roi.n0).flatMap fun i =>
    (List.range roi.n1).flatMap fun j =>
      (List.range roi.n2).filterMap fun k =>
        if roi.data i j k then some (i, j, k) else none

/-- Fold step producing per-axis (min, max) index pairs. -/
def bbStep (acc : (ℕ × ℕ) × (ℕ × ℕ) × (ℕ × ℕ)) (p : ℕ × ℕ × ℕ) :
    (ℕ × ℕ) × (ℕ × ℕ) × (ℕ × ℕ) :=
  ((min acc.1.1 p.1, max acc.1.2 p.1),
   (min acc.2.1.1 p.2.1, max acc.2.1.2 p.2.1),
   (min acc.2.2.1 p.2.2, max acc.2.2.2 p.2.2))

/-- Modelled from the spec: `compute_bounding_box` (spec §4.5) — the
smallest per-axis inclusive index ranges containing every set voxel;
fails with EmptyROI when the mask has no set voxel. -/
def computeBoundingBox (roi : Arr3 Bool) :
    Except CBErr ((ℕ × ℕ) × (ℕ × ℕ) × (ℕ × ℕ)) :=
  match idxList roi with
  | [] => .error .emptyROI
  | p :: ps =>
    .ok (ps.foldl bbStep ((p.1, p.1), (p.2.1, p.2.1), (p.2.2, p.2.2)))

/-- `np.floor(n / 2.0)` on an integer: floor division by two.  Written with
euclidean `/` and `%` so that `omega` can reason about it. -/
def halveI (n : ℤ) : ℤ := (n - n % 2) / 2

/-- Termination measure for the clamp/shrink loop: positive components
shrink to 0, negative components converge to the fixpoint -1. -/
def nvMeasure (nv : ℤ × ℤ × ℤ) : ℕ :=
  (max nv.1 (-nv.1 - 1)).toNat + (max nv.2.1 (-nv.2.1 - 1)).toNat +
    (max nv.2.2 (-nv.2.2 - 1)).toNat

/-- The bounds check of compute_box.py lines 67-82: `border = box ± n_v + 1`;
`check1` counts the three lower borders being positive, and one unit is
added for each upper border within the volume; the expansion is accepted
only when the total is 6. -/
def checksPass (sh : ℕ × ℕ × ℕ) (bb : (ℕ × ℕ) × (ℕ × ℕ) × (ℕ × ℕ))
    (nv : ℤ × ℤ × ℤ) : Bool :=
  ((if 0 < (bb.1.1 : ℤ) - nv.1 + 1 then 1 else 0) +
   (if 0 < (bb.2.1.1 : ℤ) - nv.2.1 + 1 then 1 else 0) +
   (if 0 < (bb.2.2.1 : ℤ) - nv.2.2 + 1 then 1 else 0) +
   (if (bb.1.2 : ℤ) + nv.1 + 1 ≤ (sh.1 : ℤ) then 1 else 0) +
   (if (bb.2.1.2 : ℤ) + nv.2.1 + 1 ≤ (sh.2.1 : ℤ) then 1 else 0) +
   (if (bb.2.2.2 : ℤ) + nv.2.2 + 1 ≤ (sh.2.2 : ℤ) then 1 else 0) : ℕ) = 6

set_option maxHeartbeats 1600000 in
/-- The clamp/shrink `while` loop of compute_box.py lines 64-88: accept the
margin if the expanded box is in bounds, otherwise halve it (floor); when
the halved margin sums to zero fall back to the tight box (margin 0).  A
margin that the halving can no longer change while the checks keep failing
makes the Python loop spin forever; that (unreachable for the nonnegative
margins of the spec grammar) case is reported as `infiniteLoop`. -/
def shrinkLoop (sh : ℕ × ℕ × ℕ) (bb : (ℕ × ℕ) × (ℕ × ℕ) × (ℕ × ℕ))
    (nv : ℤ × ℤ × ℤ) : Except CBErr (ℤ × ℤ × ℤ) :=
  if checksPass sh bb nv then .ok nv
  else if halveI nv.1 + halveI nv.2.1 + halveI nv.2.2 = 0 then .ok (0, 0, 0)
  else if h : (halveI nv.1, halveI nv.2.1, halveI nv.2.2) = nv then .error .infiniteLoop
  else shrinkLoop sh bb (halveI nv.1, halveI nv.2.1, halveI nv.2.2)
termination_by nvMeasure nv
decreasing_by
  simp_wf
  simp only [nvMeasure, halveI, Prod.ext_iff, Prod.mk.injEq] at h ⊢
  omega

/-- Python slice-bound normalization for an array of length `n`: negative
indices count from the end, then the result is clamped into `[0, n]`. -/
def pyBound (n : ℕ) (i : ℤ) : ℕ :=
  ((if i < 0 then i + n else i).toNat).min n

/-- numpy basic slicing `A[l0:h0, l1:h1, l2:h2]` (bounds may exceed the
array: they are clamped, never raising). -/
def slice3 {α : Type} (A : Arr3 α) (l0 h0 l1 h1 l2 h2 : ℤ) : Arr3 α :=
  let s0 := pyBound A.n0 l0
  let s1 := pyBound A.n1 l1
  let s2 := pyBound A.n2 l2
  { n0 := pyBound A.n0 h0 - s0
    n1 := pyBound A.n1 h1 - s1
    n2 := pyBound A.n2 h2 - s2
    data := fun i j k => A.data (s0 + i) (s1 + j) (s2 + k) }

/-- compute_box.py lines 109-132: the new `imref3d` for the cropped box.
Its image size is `diff(box_bound)+1`, the pixel extents are inherited, and
each lower world limit is moved to
`intrinsicToWorld(spatial_ref, box_bound[axis, 0]) - extent/2`
("the border of the first pixel"). -/
def newRefOfBox (R : Imref3d) (l0 h0 l1 h1 l2 h2 : ℤ) : Imref3d :=
  { imageSize := ((h0 - l0 + 1).toNat, (h1 - l1 + 1).toNat, (h2 - l2 + 1).toNat)
    pixelExtentX := R.pixelExtentX
    pixelExtentY := R.pixelExtentY
    pixelExtentZ := R.pixelExtentZ
    xWorldMin := intrinsicToWorldX R l0 - R.pixelExtentX / 2
    yWorldMin := intrinsicToWorldY R l1 - R.pixelExtentY / 2
    zWorldMin := intrinsicToWorldZ R l2 - R.pixelExtentZ / 2 }

/-- Same construction as `newRefOfBox` but with the zero-based convention
`intrinsicToWorldX0` in place of the spec's one-based formula; used only to
state the amended world-preservation claim. -/
def newRefOfBox0 (R : Imref3d) (l0 h0 l1 h1 l2 h2 : ℤ) : Imref3d :=
  { imageSize := ((h0 - l0 + 1).toNat, (h1 - l1 + 1).toNat, (h2 - l2 + 1).toNat)
    pixelExtentX := R.pixelExtentX
    pixelExtentY := R.pixelExtentY
    pixelExtentZ := R.pixelExtentZ
    xWorldMin := intrinsicToWorldX0 R l0 - R.pixelExtentX / 2
    yWorldMin := intrinsicToWorldY0 R l1 - R.pixelExtentY / 2
    zWorldMin := intrinsicToWorldZ0 R l2 - R.pixelExtentZ / 2 }

/-- The margin derived from a size factor `f` (compute_box.py lines 58-62):
`n_v = round((size*f - size)/2)` with `size = max - min + 1`. -/
def nvOfFactor (mn mx : ℕ) (f : ℚ) : ℤ :=
  roundHalfEven ((((mx : ℚ) - (mn : ℚ) + 1) * f - ((mx : ℚ) - (mn : ℚ) + 1)) / 2)

/-- Shallow embedding of `compute_box` (compute_box.py lines 48-137).
The `"box"`-substring branch computes the ROI bounding box, decodes the
margin/factor, runs the clamp/shrink loop, slices both arrays and derives
the new reference; a `"full"` substring returns the inputs unchanged; any
other string hits the missing `else` and raises `UnboundLocalError`. -/
def compute_box (vol : Arr3 ℚ) (roi : Arr3 Bool) (R : Imref3d)
    (box_string : String) : Except CBErr (Arr3 ℚ × Arr3 Bool × Imref3d) :=
  if containsSub box_string.data boxChars then
    match computeBoundingBox roi with
    | .error e => .error e
    | .ok bb =>
      match parseBoxSpec box_string.data with
      | .error e => .error e
      | .ok spec =>
        let nvRes : Except CBErr (ℤ × ℤ × ℤ) :=
          match spec with
          | .tight => .ok (0, 0, 0)
          | .margin n => shrinkLoop (vol.n0, vol.n1, vol.n2) bb (n, n, n)
          | .factor f =>
            shrinkLoop (vol.n0, vol.n1, vol.n2) bb
              (nvOfFactor bb.1.1 bb.1.2 f, nvOfFactor bb.2.1.1 bb.2.1.2 f,
               nvOfFactor bb.2.2.1 bb.2.2.2 f)
        match nvRes with
        | .error e => .error e
        | .ok nv =>
          let l0 : ℤ := (bb.1.1 : ℤ) - nv.1
          let h0 : ℤ := (bb.1.2 : ℤ) + nv.1
          let l1 : ℤ := (bb.2.1.1 : ℤ) - nv.2.1
          let h1 : ℤ := (bb.2.1.2 : ℤ) + nv.2.1
          let l2 : ℤ := (bb.2.2.1 : ℤ) - nv.2.2
          let h2 : ℤ := (bb.2.2.2 : ℤ) + nv.2.2
          .ok (slice3 vol l0 (h0 + 1) l1 (h1 + 1) l2 (h2 + 1),
               slice3 roi l0 (h0 + 1) l1 (h1 + 1) l2 (h2 + 1),
               newRefOfBox R l0 h0 l1 h1 l2 h2)
  else if containsSub box_string.data fullChars then
    .ok (vol, roi, R)
  else .error .unboundLocal

/-- Count of occurrences of `a` in `l` (decidable-equality based). -/
def cnt {α : Type} [DecidableEq α] (l : List α) (a : α) : ℕ :=
  l.countP (fun b => decide (b = a))

/-- One comparison step of the mode fold: prefer `a` over the current best
`b` when `a` occurs more often in `l`, or equally often but is smaller. -/
def modeStep {α : Type} [LinearOrder α] (l : List α) (b a : α) : α :=
  if cnt l a > cnt l b ∨ (cnt l a = cnt l b ∧ a < b) then a else b

/-- Modelled from the spec: `utils/mode.py` is not in `src/`.  Spec §4.2:
the most frequent value of a finite sequence, ties broken by returning the
smallest such value; `dflt` is returned for an empty sequence (never used by
the callers, which pass nonempty slices). -/
def modeOf {α : Type} [LinearOrder α] (dflt : α) (l : List α) : α :=
  match l with
  | [] => dflt
  | x :: xs => xs.foldl (modeStep l) x

/-- get_polygon_mask.py lines 54 and 65: the slice assigned to a contour is
`mode(np.round(K))` of its slice-axis intrinsic coordinates — the
coordinates are rounded (half-even) first, then the integer mode is taken. -/
def selectSlice (ks : List ℚ) : ℤ :=
  modeOf 0 (ks.map roundHalfEven)

/-- Point `p` lies on the closed segment from `a` to `b`. -/
def onSeg (p a b : ℚ × ℚ) : Bool :=
  decide ((b.1 - a.1) * (p.2 - a.2) = (b.2 - a.2) * (p.1 - a.1) ∧
    min a.1 b.1 ≤ p.1 ∧ p.1 ≤ max a.1 b.1 ∧
    min a.2 b.2 ≤ p.2 ∧ p.2 ≤ max a.2 b.2)

/-- The directed edges of a polygon, the last vertex reconnecting to the
first (spec §4.3: closed automatically). -/
def edgesOf (vs : List (ℚ × ℚ)) : List ((ℚ × ℚ) × (ℚ × ℚ)) :=
  match vs with
  | [] => []
  | v :: _ => vs.zip (vs.tail ++ [v])

/-- Does the edge `(a, b)` cross the ray cast in the +X direction from `p`
(half-open vertical rule, the standard even-odd crossing test)? -/
def crossesRay (p : ℚ × ℚ) (a b : ℚ × ℚ) : Bool :=
  (decide (p.2 < a.2) != decide (p.2 < b.2)) &&
    decide (p.1 < a.1 + (p.2 - a.2) * (b.1 - a.1) / (b.2 - a.2))

/-- Modelled from the spec: `utils/inpolygon.py` is not in `src/`.
Spec §4.3: even-odd (crossing-number) rule with boundary points classified
inside; a degenerate polygon with fewer than 3 distinct vertices yields an
empty mask. -/
def inpolygonPt (vs : List (ℚ × ℚ)) (p : ℚ × ℚ) : Bool :=
  if vs.dedup.length < 3 then false
  else
    (edgesOf vs).any (fun e => onSeg p e.1 e.2) ||
      ((edgesOf vs).countP (fun e => crossesRay p e.1 e.2)) % 2 = 1

/-- Errors of `get_polygon_mask` (Python exceptions). -/
inductive PMErr where
  /-- orientation not Axial/Sagittal/Coronal (ValueError, line 51). -/
  | invalidOrientation : PMErr
  /-- `roi_mask[:, :, select_slice]` with the slice index out of
  `[-imageSize[2], imageSize[2])` (numpy IndexError). -/
  | indexError : PMErr
  /-- `np.logical_or` of the `(n0, n1)` mask plane with the `(n1, n0)`
  meshgrid-shaped `inpolygon` result fails to broadcast when `n0 ≠ n1`. -/
  | broadcastError : PMErr
deriving DecidableEq

/-- get_polygon_mask.py lines 38-52: the axis permutation chosen from the
orientation string — `(a, b, c)` with `a`, `b` the in-plane point
coordinates fed to `inpolygon` and `c` the slice coordinate. -/
def axesOf (orientation : String) : Option (ℕ × ℕ × ℕ) :=
  if orientation = "Axial" then some (0, 1, 2)
  else if orientation = "Sagittal" then some (1, 2, 0)
  else if orientation = "Coronal" then some (0, 2, 1)
  else none

/-- Component `i` of a coordinate triple (`points[:, i]`). -/
def coordOf (i : ℕ) (p : ℚ × ℚ × ℚ) : ℚ :=
  if i = 0 then p.1 else if i = 1 then p.2.1 else p.2.2

/-- Insert into a sorted list of contour ids. -/
def insertSorted (a : ℤ) (l : List ℤ) : List ℤ :=
  match l with
  | [] => [a]
  | b :: t => if a ≤ b then a :: b :: t else b :: insertSorted a t

/-- `np.unique`: the distinct values in ascending order. -/
def uniqueSorted (l : List ℤ) : List ℤ :=
  l.dedup.foldr insertSorted []

/-- The distinct contour ids of the point rows (`np.unique(roi_xyz[:, 3])`,
get_polygon_mask.py line 55). -/
def idsOf (rows : List (ℚ × ℚ × ℚ × ℤ)) : List ℤ :=
  uniqueSorted (rows.map fun p => p.2.2.2)

/-- The numpy index actually addressed by `roi_mask[:, :, s]`: negative
values wrap around from the end. -/
def wrapIdx (n2 : ℕ) (s : ℤ) : ℕ :=
  (if s < 0 then s + n2 else s).toNat

/-- The boolean a contour with intrinsic points `pts` contributes to mask
entry `(r, c, k)` (axes `a`, `b` in plane): the write targets the plane
`roi_mask[:, :, wrapIdx]` along the third array axis, and the meshgrid
query point of entry `(r, c)` is `x = c`, `y = r`. -/
def contribOf (a b c : ℕ) (n0 n1 n2 : ℕ) (pts : List (ℚ × ℚ × ℚ))
    (r cc k : ℕ) : Bool :=
  decide (k = wrapIdx n2 (selectSlice (pts.map (coordOf c)))) &&
    decide (r < n0) && decide (cc < n1) &&
    inpolygonPt (pts.map fun p => (coordOf a p, coordOf b p)) ((cc : ℚ), (r : ℚ))

/-- One iteration of the contour loop (get_polygon_mask.py lines 60-68):
assign the slice by `mode(round(K))`, rasterize the `(a, b)` coordinates
against the `arange(n0) × arange(n1)` meshgrid, and OR the plane into
`roi_mask[:, :, select_slice]`.  numpy raises when the slice index is out
of range, and the `logical_or` broadcast fails when `n0 ≠ n1` (the
meshgrid result has shape `(n1, n0)` but the mask plane `(n0, n1)`). -/
def writeContour (a b c : ℕ) (n0 n1 n2 : ℕ) (pts : List (ℚ × ℚ × ℚ))
    (m : ℕ → ℕ → ℕ → Bool) : Except PMErr (ℕ → ℕ → ℕ → Bool) :=
  let s := selectSlice (pts.map (coordOf c))
  if s < -(n2 : ℤ) ∨ (n2 : ℤ) ≤ s then .error .indexError
  else if n0 ≠ n1 then .error .broadcastError
  else .ok (fun r cc k => m r cc k || contribOf a b c n0 n1 n2 pts r cc k)

/-- The intrinsic-coordinate triples of the contour with id `id`:
`worldToIntrinsic` applied to all rows (get_polygon_mask.py line 31),
restricted to the rows of that closed contour (line 61). -/
def contourPts (rows : List (ℚ × ℚ × ℚ × ℤ)) (R : Imref3d) (id : ℤ) :
    List (ℚ × ℚ × ℚ) :=
  (((rows.map fun p =>
      (worldToIntrinsicX R p.1, worldToIntrinsicY R p.2.1,
       worldToIntrinsicZ R p.2.2.1, p.2.2.2)).filter
    fun p => p.2.2.2 = id).map fun p => (p.1, p.2.1, p.2.2.1))

/-- Shallow embedding of `get_polygon_mask` (get_polygon_mask.py).  The
world contour points are converted to intrinsic coordinates, the
orientation picks the axis permutation (ValueError otherwise), and each
closed contour is rasterized onto its assigned slice and ORed into the
zero-initialized mask of shape `spatial_ref.ImageSize`. -/
def get_polygon_mask (roi_xyz : List (ℚ × ℚ × ℚ × ℤ)) (spatial_ref : Imref3d)
    (orientation : String) : Except PMErr (Arr3 Bool) :=
  let n0 := spatial_ref.imageSize.1
  let n1 := spatial_ref.imageSize.2.1
  let n2 := spatial_ref.imageSize.2.2
  match axesOf orientation with
  | none => .error .invalidOrientation
  | some (a, b, c) =>
    (List.foldlM
        (fun m id => writeContour a b c n0 n1 n2 (contourPts roi_xyz spatial_ref id) m)
        (fun _ _ _ => false) (idsOf roi_xyz)).map
      fun m => { n0 := n0, n1 := n1, n2 := n2, data := m }

/-- Whether an `Except` value is a success. -/
def isOkB {ε α : Type} (e : Except ε α) : Bool :=
  match e with
  | .ok _ => true
  | .error _ => false

/-- Decidable equality of `Except` values (used to evaluate the concrete
counterexamples and witnesses by `decide`). -/
instance {ε α : Type} [DecidableEq ε] [DecidableEq α] :
    DecidableEq (Except ε α) := fun x y =>
  match x, y with
  | .ok a, .ok b =>
    if h : a = b then isTrue (by rw [h]) else isFalse (fun hh => h (Except.ok.inj hh))
  | .error e, .error f =>
    if h : e = f then isTrue (by rw [h]) else isFalse (fun hh => h (Except.error.inj hh))
  | .ok a, .error f => isFalse (fun hh => Except.noConfusion hh)
  | .error e, .ok b => isFalse (fun hh => Except.noConfusion hh)

/-- The mask that claim C1 predicts for a Sagittal rasterization, built
from the claim's words for comparison with the code: "for Sagittal the
plane at assigned slice `s` occupies `mask[s, :, :]` over the Y and Z
extents", i.e. the slice index selects the FIRST array axis and the
in-plane grid spans the Y and Z extents of `imageSize`. -/
def claimC1SagittalMask (rows : List (ℚ × ℚ × ℚ × ℤ)) (R : Imref3d) :
    Arr3 Bool :=
  { n0 := R.imageSize.1
    n1 := R.imageSize.2.1
    n2 := R.imageSize.2.2
    data := fun s y z =>
      (idsOf rows).any fun id =>
        decide ((s : ℤ) = selectSlice ((contourPts rows R id).map (coordOf 0))) &&
          decide (y < R.imageSize.2.1) && decide (z < R.imageSize.2.2) &&
          inpolygonPt ((contourPts rows R id).map fun p => (coordOf 1 p, coordOf 2 p))
            ((y : ℚ), (z : ℚ)) }

/-- A 2×2×2 spatial reference with unit spacing and zero lower world limits. -/
def refUnit : Imref3d :=
  { imageSize := (2, 2, 2)
    pixelExtentX := 1, pixelExtentY := 1, pixelExtentZ := 1
    xWorldMin := 0, yWorldMin := 0, zWorldMin := 0 }

/-- A 3×3×2 spatial reference with unit spacing and zero lower world limits. -/
def refC1 : Imref3d :=
  { imageSize := (3, 3, 2)
    pixelExtentX := 1, pixelExtentY := 1, pixelExtentZ := 1
    xWorldMin := 0, yWorldMin := 0, zWorldMin := 0 }

/-- A single Sagittal square contour: constant world x = 1/2 (intrinsic
x-coordinate 1, so assigned slice 1) and a (y, z) square spanning world
[-1, 1]² (intrinsic [-1/2, 3/2]², covering in-plane grid indices 0 and 1). -/
def rowsC1 : List (ℚ × ℚ × ℚ × ℤ) :=
  [(1/2, -1, -1, 0), (1/2, 1, -1, 0), (1/2, 1, 1, 0), (1/2, -1, 1, 0)]

/-- A single Axial square contour whose constant world z = -3/2 has
intrinsic slice coordinate -1 (rounding to the negative index -1), with an
(x, y) square spanning world [-1, 1]² (covering grid indices 0 and 1). -/
def rowsC10 : List (ℚ × ℚ × ℚ × ℤ) :=
  [(-1, -1, -3/2, 0), (1, -1, -3/2, 0), (1, 1, -3/2, 0), (-1, 1, -3/2, 0)]

/-- A 2×2×2 all-zero volume. -/
def volTwo : Arr3 ℚ := { n0 := 2, n1 := 2, n2 := 2, data := fun _ _ _ => 0 }

/-- A 2×2×2 mask whose only set voxel is (1,1,1). -/
def roiCorner : Arr3 Bool :=
  { n0 := 2, n1 := 2, n2 := 2, data := fun i j k => decide (i = 1 ∧ j = 1 ∧ k = 1) }

/-- A 1×1×1 all-one mask (extents deliberately different from `volTwo`). -/
def roiOne : Arr3 Bool := { n0 := 1, n1 := 1, n2 := 1, data := fun _ _ _ => true }

/-- A 7×7×7 all-zero volume. -/
def volSeven : Arr3 ℚ := { n0 := 7, n1 := 7, n2 := 7, data := fun _ _ _ => 0 }

/-- A 7×7×7 mask whose only set voxel is the center (3,3,3). -/
def roiSeven : Arr3 Bool :=
  { n0 := 7, n1 := 7, n2 := 7, data := fun i j k => decide (i = 3 ∧ j = 3 ∧ k = 3) }

/-- A 7×7×7 spatial reference with unit spacing and zero lower world limits. -/
def refSeven : Imref3d :=
  { imageSize := (7, 7, 7)
    pixelExtentX := 1, pixelExtentY := 1, pixelExtentZ := 1
    xWorldMin := 0, yWorldMin := 0, zWorldMin := 0 }

/-- A 5×5×5 mask whose only set voxel is the center (2,2,2). -/
def roiFive : Arr3 Bool :=
  { n0 := 5, n1 := 5, n2 := 5, data := fun i j k => decide (i = 2 ∧ j = 2 ∧ k = 2) }

/-- The empty 2×2×2 boolean mask (the output of rasterizing no contours). -/
def maskEmpty : Arr3 Bool := { n0 := 2, n1 := 2, n2 := 2, data := fun _ _ _ => false }

/-- The slice-coordinate list of claim C4's counterexample: the values
3/5 and 7/5 each appear twice (both rounding to 1), while 8/5 appears
three times (rounding to 2). -/
def ksC4 : List ℚ := [3/5, 3/5, 7/5, 7/5, 8/5, 8/5, 8/5]

/-! ## Helper lemmas shared by several claims -/

theorem modeFold_spec {α : Type} [LinearOrder α] (l : List α) :
    ∀ (xs : List α) (b : α),
      ((xs.foldl (modeStep l) b = b ∨ xs.foldl (modeStep l) b ∈ xs) ∧
       cnt l b ≤ cnt l (xs.foldl (modeStep l) b) ∧
       (∀ a ∈ xs, cnt l a < cnt l (xs.foldl (modeStep l) b) ∨
         (cnt l a = cnt l (xs.foldl (modeStep l) b) ∧ xs.foldl (modeStep l) b ≤ a)) ∧
       (cnt l b = cnt l (xs.foldl (modeStep l) b) → xs.foldl (modeStep l) b ≤ b)) := by
  intro xs
  induction xs with
  | nil =>
    intro b
    refine ⟨Or.inl rfl, le_refl _, ?_, fun _ => le_refl _⟩
    intro a ha
    cases ha
  | cons x xs ih =>
    intro b
    have hfold : (x :: xs).foldl (modeStep l) b = xs.foldl (modeStep l) (modeStep l b x) := rfl
    by_cases hstep : cnt l x > cnt l b ∨ (cnt l x = cnt l b ∧ x < b)
    · have hbx : modeStep l b x = x := by rw [modeStep, if_pos hstep]
      rw [hfold, hbx]
      obtain ⟨ihmem, ihle, ihall, ihtie⟩ := ih x
      refine ⟨?_, ?_, ?_, ?_⟩
      · rcases ihmem with h | h
        · exact Or.inr (by rw [h]; exact List.mem_cons_self x xs)
        · exact Or.inr (List.mem_cons_of_mem x h)
      · rcases hstep with h | ⟨h, _⟩
        · exact le_trans (le_of_lt h) ihle
        · exact le_trans (le_of_eq h.symm) ihle
      · intro a ha
        rcases List.mem_cons.mp ha with rfl | ha
        · rcases lt_or_eq_of_le ihle with h | h
          · exact Or.inl h
          · exact Or.inr ⟨h, ihtie h⟩
        · exact ihall a ha
      · intro htie
        rcases hstep with h | ⟨h, hlt⟩
        · exact absurd (lt_of_lt_of_le h ihle) (by rw [htie]; exact lt_irrefl _)
        · exact le_trans (ihtie (h.trans htie)) (le_of_lt hlt)
    · have hbx : modeStep l b x = b := by rw [modeStep, if_neg hstep]
      rw [hfold, hbx]
      obtain ⟨ihmem, ihle, ihall, ihtie⟩ := ih b
      push_neg at hstep
      obtain ⟨hle2, hne⟩ := hstep
      refine ⟨?_, ihle, ?_, ihtie⟩
      · rcases ihmem with h | h
        · exact Or.inl h
        · exact Or.inr (List.mem_cons_of_mem x h)
      · intro a ha
        rcases List.mem_cons.mp ha with rfl | ha
        · rcases lt_or_eq_of_le hle2 with h | h
          · exact Or.inl (lt_of_lt_of_le h ihle)
          · rcases lt_or_eq_of_le ihle with h2 | h2
            · exact Or.inl (lt_of_le_of_lt (le_of_eq h) h2)
            · exact Or.inr ⟨h.trans h2, le_trans (ihtie h2) (hne h)⟩
        · exact ihall a ha

theorem modeOf_mem {α : Type} [LinearOrder α] (dflt : α) (l : List α) (h : l ≠ []) :
    modeOf dflt l ∈ l := by
  cases l with
  | nil => exact absurd rfl h
  | cons x xs =>
    rcases (modeFold_spec (x :: xs) xs x).1 with h1 | h1
    · rw [modeOf, h1]; exact List.mem_cons_self x xs
    · exact List.mem_cons_of_mem x h1

theorem modeOf_count_max {α : Type} [LinearOrder α] (dflt : α) (l : List α)
    (a : α) (ha : a ∈ l) : cnt l a ≤ cnt l (modeOf dflt l) := by
  cases l with
  | nil => cases ha
  | cons x xs =>
    obtain ⟨_, hle, hall, _⟩ := modeFold_spec (x :: xs) xs x
    rcases List.mem_cons.mp ha with rfl | ha
    · exact hle
    · rcases hall a ha with h | h
      · exact le_of_lt h
      · exact le_of_eq h.1

theorem modeOf_min_of_tie {α : Type} [LinearOrder α] (dflt : α) (l : List α)
    (a : α) (ha : a ∈ l) (htie : cnt l a = cnt l (modeOf dflt l)) :
    modeOf dflt l ≤ a := by
  cases l with
  | nil => cases ha
  | cons x xs =>
    obtain ⟨_, _, hall, htie2⟩ := modeFold_spec (x :: xs) xs x
    rcases List.mem_cons.mp ha with rfl | ha
    · exact htie2 htie
    · rcases hall a ha with h | h
      · exact absurd htie (ne_of_lt h)
      · exact h.2

theorem modeOf_const {α : Type} [LinearOrder α] (dflt v : α) (l : List α)
    (h : l ≠ []) (hall : ∀ x ∈ l, x = v) : modeOf dflt l = v :=
  hall _ (modeOf_mem dflt l h)

theorem checksPass_eq_true_iff (sh : ℕ × ℕ × ℕ) (bb : (ℕ × ℕ) × (ℕ × ℕ) × (ℕ × ℕ))
    (nv : ℤ × ℤ × ℤ) :
    checksPass sh bb nv = true ↔
      (0 ≤ (bb.1.1 : ℤ) - nv.1 ∧ 0 ≤ (bb.2.1.1 : ℤ) - nv.2.1 ∧
       0 ≤ (bb.2.2.1 : ℤ) - nv.2.2 ∧
       (bb.1.2 : ℤ) + nv.1 + 1 ≤ (sh.1 : ℤ) ∧
       (bb.2.1.2 : ℤ) + nv.2.1 + 1 ≤ (sh.2.1 : ℤ) ∧
       (bb.2.2.2 : ℤ) + nv.2.2 + 1 ≤ (sh.2.2 : ℤ)) := by
  unfold checksPass
  rw [decide_eq_true_eq]
  split_ifs <;> omega

theorem writeContour_ok_data {a b c n0 n1 n2 : ℕ} {pts : List (ℚ × ℚ × ℚ)}
    {m0 m1 : ℕ → ℕ → ℕ → Bool}
    (h : writeContour a b c n0 n1 n2 pts m0 = .ok m1) :
    m1 = fun r cc k => m0 r cc k || contribOf a b c n0 n1 n2 pts r cc k := by
  simp only [writeContour] at h
  split at h
  · cases h
  · split at h
    · cases h
    · exact (Except.ok.inj h).symm

theorem foldWrite_ok (a b c n0 n1 n2 : ℕ) (f : ℤ → List (ℚ × ℚ × ℚ)) :
    ∀ (ids : List ℤ) (m0 m : ℕ → ℕ → ℕ → Bool),
      List.foldlM (fun m id => writeContour a b c n0 n1 n2 (f id) m) m0 ids = .ok m →
      ∀ r cc k, m r cc k = (m0 r cc k ||
        ids.any (fun id => contribOf a b c n0 n1 n2 (f id) r cc k)) := by
  intro ids
  induction ids with
  | nil =>
    intro m0 m h r cc k
    simp only [List.foldlM_nil] at h
    have hm : m0 = m := Except.ok.inj h
    subst hm
    simp
  | cons id ids ih =>
    intro m0 m h r cc k
    rw [List.foldlM_cons] at h
    cases hw : writeContour a b c n0 n1 n2 (f id) m0 with
    | error e =>
      rw [hw] at h
      cases h
    | ok m1 =>
      rw [hw] at h
      have h2 : List.foldlM (fun m id => writeContour a b c n0 n1 n2 (f id) m) m1 ids
          = .ok m := h
      have hm1 := writeContour_ok_data hw
      have hrec := ih m1 m h2 r cc k
      rw [hrec, hm1]
      simp only [List.any_cons, Bool.or_assoc]

theorem dedup_const {i0 : ℤ} : ∀ (l : List ℤ), l ≠ [] → (∀ x ∈ l, x = i0) →
    l.dedup = [i0] := by
  intro l
  induction l with
  | nil => intro h; exact absurd rfl h
  | cons x xs ih =>
    intro _ hall
    have hx : x = i0 := hall x (List.mem_cons_self x xs)
    subst hx
    by_cases hxs : xs = []
    · subst hxs
      simp
    · have hd := ih hxs (fun z hz => hall z (List.mem_cons_of_mem x hz))
      obtain ⟨y, ys, hys⟩ := List.exists_cons_of_ne_nil hxs
      have hy : y = x :=
        hall y (by rw [hys]; exact List.mem_cons_of_mem x (List.mem_cons_self y ys))
      have hmem : x ∈ xs := by
        rw [hys, ← hy]
        exact List.mem_cons_self y ys
      rw [List.dedup_cons_of_mem hmem, hd]

theorem idsOf_const (rows : List (ℚ × ℚ × ℚ × ℤ)) (i0 : ℤ)
    (hne : rows ≠ []) (hall : ∀ p ∈ rows, p.2.2.2 = i0) : idsOf rows = [i0] := by
  unfold idsOf uniqueSorted
  have hd : (rows.map fun p => p.2.2.2).dedup = [i0] := by
    apply dedup_const
    · simpa using hne
    · intro x hx
      obtain ⟨p, hp, hpx⟩ := List.mem_map.mp hx
      rw [← hpx]
      exact hall p hp
  rw [hd]
  rfl

theorem contourPts_all (rows : List (ℚ × ℚ × ℚ × ℤ)) (R : Imref3d) (i0 : ℤ)
    (hall : ∀ p ∈ rows, p.2.2.2 = i0) :
    contourPts rows R i0 = rows.map fun p =>
      (worldToIntrinsicX R p.1, worldToIntrinsicY R p.2.1, worldToIntrinsicZ R p.2.2.1) := by
  unfold contourPts
  rw [List.filter_eq_self.mpr]
  · rw [List.map_map]
    rfl
  · intro q hq
    obtain ⟨p, hp, hpq⟩ := List.mem_map.mp hq
    rw [← hpq]
    simp [hall p hp]

theorem computeBoundingBox_isOk (roi : Arr3 Bool) (i j k : ℕ)
    (hi : i < roi.n0) (hj : j < roi.n1) (hk : k < roi.n2)
    (hd : roi.data i j k = true) :
    ∃ bb, computeBoundingBox roi = .ok bb := by
  have hmem : (i, j, k) ∈ idxList roi := by
    unfold idxList
    simp only [List.mem_flatMap, List.mem_filterMap, List.mem_range]
    exact ⟨i, hi, j, hj, k, hk, by simp [hd]⟩
  unfold computeBoundingBox
  cases hL : idxList roi with
  | nil => rw [hL] at hmem; cases hmem
  | cons p ps => exact ⟨_, rfl⟩

theorem truncToInt_natCast (n : ℕ) : truncToInt (n : ℚ) = n := by
  unfold truncToInt
  rw [if_pos (by positivity)]
  exact Int.floor_natCast n

theorem parseDecimal_digits (ds : List Char) (hne : ds ≠ [])
    (hdig : ∀ ch ∈ ds, ch.isDigit = true) :
    parseDecimal ds = some ((natVal ds : ℚ)) := by
  have ht : ds.takeWhile Char.isDigit = ds := List.takeWhile_eq_self_iff.mpr hdig
  have hdp : ds.dropWhile Char.isDigit = [] := List.dropWhile_eq_nil_iff.mpr hdig
  simp only [parseDecimal, ht, hdp]
  rw [if_neg hne]

theorem findSub_box_prefix (ds : List Char) :
    findSub (boxChars ++ ds) boxChars = some 0 := by
  unfold findSub
  rw [if_pos]
  simp [boxChars, List.isPrefixOf]

theorem findSub_digits_box (ds : List Char) (hdig : ∀ ch ∈ ds, ch.isDigit = true) :
    findSub (ds ++ boxChars) boxChars = some ds.length := by
  induction ds with
  | nil => decide
  | cons d ds ih =>
    have hd : d ≠ 'b' := by
      intro hh
      have := hdig d (List.mem_cons_self d ds)
      rw [hh] at this
      exact absurd this (by decide)
    have hnp : boxChars.isPrefixOf (d :: ds ++ boxChars) ≠ true := by
      simp only [boxChars, List.cons_append, List.isPrefixOf]
      simp [beq_eq_false_iff_ne.mpr (Ne.symm hd)]
    unfold findSub
    rw [if_neg hnp]
    have hrec := ih (fun ch hch => hdig ch (List.mem_cons_of_mem d hch))
    show Option.map (fun x => x + 1) (findSub (ds ++ boxChars) boxChars)
      = some (d :: ds).length
    rw [hrec]
    rfl

/-! ## The claims -/

/-- C1 (counterexample): the claim predicts that for Sagittal the plane at
assigned slice `s` occupies `mask[s, :, :]` over the Y and Z extents.  On
`rowsC1` (one Sagittal square contour assigned to X-slice 1 covering the
whole in-plane grid) the code sets `mask[0, 0, 1]` (the write is along the
THIRD array axis), while the claim-predicted mask `claimC1SagittalMask` is
0 there (its first index 0 differs from the assigned slice 1). -/
theorem C1_counterexample :
    Except.map (fun A => A.data 0 0 1) (get_polygon_mask rowsC1 refC1 "Sagittal")
      = .ok true ∧
    (claimC1SagittalMask rowsC1 refC1).data 0 0 1 = false := by
  refine ⟨by with_unfolding_all decide, by with_unfolding_all decide⟩

/-- C1 (amended): for every valid orientation, `get_polygon_mask` writes
every contour's rasterized region into the output mask along the THIRD
array axis at the (wrap-normalized) assigned slice index, with the
rasterization grid always spanning `imageSize[0] × imageSize[1]`;
the orientation permutation only selects which intrinsic point coordinates
feed the rasterizer and the slice assignment.  The mask has the extent of
`spatialReference.imageSize` and each entry is the OR of the per-contour
contributions. -/
theorem C1_amended (rows : List (ℚ × ℚ × ℚ × ℤ)) (R : Imref3d) (orient : String)
    (a b c : ℕ) (m : Arr3 Bool)
    (hax : axesOf orient = some (a, b, c))
    (hok : get_polygon_mask rows R orient = .ok m) :
    m.n0 = R.imageSize.1 ∧ m.n1 = R.imageSize.2.1 ∧ m.n2 = R.imageSize.2.2 ∧
    ∀ r cc k, m.data r cc k = (idsOf rows).any
      (fun id => contribOf a b c R.imageSize.1 R.imageSize.2.1 R.imageSize.2.2
        (contourPts rows R id) r cc k) := by
  simp only [get_polygon_mask, hax] at hok
  cases hf : List.foldlM
      (fun m id => writeContour a b c R.imageSize.1 R.imageSize.2.1 R.imageSize.2.2
        (contourPts rows R id) m)
      (fun _ _ _ => false) (idsOf rows) with
  | error e =>
    rw [hf] at hok
    cases hok
  | ok mf =>
    rw [hf] at hok
    have hm : (⟨R.imageSize.1, R.imageSize.2.1, R.imageSize.2.2, mf⟩ : Arr3 Bool) = m :=
      Except.ok.inj hok
    subst hm
    refine ⟨rfl, rfl, rfl, ?_⟩
    intro r cc k
    have hchar := foldWrite_ok a b c R.imageSize.1 R.imageSize.2.1 R.imageSize.2.2
      (contourPts rows R) (idsOf rows) (fun _ _ _ => false) mf hf r cc k
    simpa using hchar

/-- C1 (witness): the amended theorem applied to the empty contour set with
the Axial orientation on the 2×2×2 reference. -/
theorem C1_witness :
    maskEmpty.n0 = refUnit.imageSize.1 ∧ maskEmpty.n1 = refUnit.imageSize.2.1 ∧
    maskEmpty.n2 = refUnit.imageSize.2.2 ∧
    ∀ r cc k, maskEmpty.data r cc k = (idsOf []).any
      (fun id => contribOf 0 1 2 refUnit.imageSize.1 refUnit.imageSize.2.1
        refUnit.imageSize.2.2 (contourPts [] refUnit id) r cc k) :=
  C1_amended [] refUnit "Axial" 0 1 2 maskEmpty (by rfl) (by rfl)

/-- C2 (counterexample): cropping `roiCorner` (single set voxel (1,1,1)
inside a 2×2×2 volume) with `"box"` yields a reference whose
`intrinsicToWorld` (the spec §4.1 one-based formula) at the retained
voxel's new index 0 gives -1/2, while the old index 1 under the original
reference gives 1/2 — the world coordinate is NOT preserved. -/
theorem C2_counterexample :
    Except.map (fun t => intrinsicToWorldX t.2.2 0)
      (compute_box volTwo roiCorner refUnit "box") = .ok (-(1/2) : ℚ) ∧
    intrinsicToWorldX refUnit 1 = (1/2 : ℚ) ∧ ((-(1/2) : ℚ) ≠ 1/2) := by
  refine ⟨by with_unfolding_all decide, by with_unfolding_all decide,
    by with_unfolding_all decide⟩

/-- C2 (amended): under the spec's one-based `intrinsicToWorld` formula the
new reference built by `compute_box` (`newRefOfBox`) maps every retained
voxel's new intrinsic index to its old world coordinate MINUS exactly one
pixel extent per axis; exact world-coordinate preservation holds for the
same construction under the zero-based voxel-center convention
(`intrinsicToWorldX0` / `newRefOfBox0`). -/
theorem C2_amended (R : Imref3d) (l0 h0 l1 h1 l2 h2 : ℤ) (i : ℚ) :
    (intrinsicToWorldX (newRefOfBox R l0 h0 l1 h1 l2 h2) i
        = intrinsicToWorldX R (i + (l0 : ℚ)) - R.pixelExtentX ∧
     intrinsicToWorldY (newRefOfBox R l0 h0 l1 h1 l2 h2) i
        = intrinsicToWorldY R (i + (l1 : ℚ)) - R.pixelExtentY ∧
     intrinsicToWorldZ (newRefOfBox R l0 h0 l1 h1 l2 h2) i
        = intrinsicToWorldZ R (i + (l2 : ℚ)) - R.pixelExtentZ) ∧
    (intrinsicToWorldX0 (newRefOfBox0 R l0 h0 l1 h1 l2 h2) i
        = intrinsicToWorldX0 R (i + (l0 : ℚ)) ∧
     intrinsicToWorldY0 (newRefOfBox0 R l0 h0 l1 h1 l2 h2) i
        = intrinsicToWorldY0 R (i + (l1 : ℚ)) ∧
     intrinsicToWorldZ0 (newRefOfBox0 R l0 h0 l1 h1 l2 h2) i
        = intrinsicToWorldZ0 R (i + (l2 : ℚ))) := by
  unfold newRefOfBox newRefOfBox0 intrinsicToWorldX intrinsicToWorldY intrinsicToWorldZ
    intrinsicToWorldX0 intrinsicToWorldY0 intrinsicToWorldZ0
  refine ⟨⟨?_, ?_, ?_⟩, ?_, ?_, ?_⟩ <;> ring

/-- C3 (counterexample): the claim reads `"<int>box"` (number BEFORE the
token) as a fixed voxel margin.  The code decodes `"3box"` as the size
FACTOR 3, not the margin 3: on a 7×7×7 volume with a single center voxel,
`"3box"` produces a 3×3×3 crop (factor semantics) while the fixed margin 3
is what `"box3"` produces (a 7×7×7 crop). -/
theorem C3_counterexample :
    parseBoxSpec ("3box".data) = .ok (.factor 3) ∧
    CropSpec.factor 3 ≠ CropSpec.margin 3 ∧
    Except.map (fun t => (t.2.1.n0, t.2.1.n1, t.2.1.n2))
      (compute_box volSeven roiSeven refSeven "3box") = .ok (3, 3, 3) ∧
    Except.map (fun t => (t.2.1.n0, t.2.1.n1, t.2.1.n2))
      (compute_box volSeven roiSeven refSeven "box3") = .ok (7, 7, 7) := by
  refine ⟨by with_unfolding_all decide, by with_unfolding_all decide,
    by with_unfolding_all decide, by with_unfolding_all decide⟩

/-- C3 (amended): in the code's grammar the number AFTER the token
(`"box<int>"`) denotes the fixed per-axis voxel margin, while a number
BEFORE the token (`"<number>box"`) denotes the size factor: for every
nonempty digit string `ds`, `"box" ++ ds` decodes to `margin (natVal ds)`
and `ds ++ "box"` decodes to `factor (natVal ds)`. -/
theorem C3_amended (ds : List Char) (hne : ds ≠ [])
    (hdig : ∀ ch ∈ ds, ch.isDigit = true) :
    parseBoxSpec (boxChars ++ ds) = .ok (.margin (natVal ds)) ∧
    parseBoxSpec (ds ++ boxChars) = .ok (.factor (natVal ds)) := by
  obtain ⟨e, es, rfl⟩ := List.exists_cons_of_ne_nil hne
  constructor
  · have hneq : boxChars ++ e :: es ≠ boxChars := by
      intro hh
      have := congrArg List.length hh
      simp [boxChars] at this
    unfold parseBoxSpec
    rw [if_neg hneq, findSub_box_prefix]
    have hdrop : (boxChars ++ e :: es).drop 3 = e :: es := by
      rw [show (3 : ℕ) = boxChars.length from rfl]
      exact List.drop_left boxChars (e :: es)
    rw [hdrop, parseDecimal_digits (e :: es) hne hdig]
    show Except.ok (CropSpec.margin (truncToInt ((natVal (e :: es) : ℚ)))) = _
    rw [truncToInt_natCast]
  · have hneq : (e :: es) ++ boxChars ≠ boxChars := by
      intro hh
      have := congrArg List.length hh
      simp [boxChars] at this
    unfold parseBoxSpec
    rw [if_neg hneq, findSub_digits_box (e :: es) hdig]
    have htake : List.take ((e :: es).length) (e :: es ++ boxChars) = e :: es :=
      List.take_left (e :: es) boxChars
    show (match parseDecimal (List.take ((e :: es).length) (e :: es ++ boxChars)) with
      | none => Except.error CBErr.valueError
      | some q => Except.ok (CropSpec.factor q)) = _
    rw [htake, parseDecimal_digits (e :: es) hne hdig]

/-- C3 (witness): the amended decoding at the digit string `"2"`:
`"box2"` is the margin 2, `"2box"` is the factor 2. -/
theorem C3_witness :
    parseBoxSpec (boxChars ++ [ '2' ]) = .ok (.margin (natVal [ '2' ])) ∧
    parseBoxSpec ([ '2' ] ++ boxChars) = .ok (.factor (natVal [ '2' ])) :=
  C3_amended [ '2' ] (by decide) (by decide)

/-- C4 (counterexample): the claim says the assigned slice is
`round(mode(coordinates))`.  On `ksC4 = [3/5, 3/5, 7/5, 7/5, 8/5, 8/5, 8/5]`
the code (`selectSlice`, i.e. `mode(round(coordinates))`) gives 1 — after
rounding, the value 1 occurs four times — while `round(mode(...))` gives
`round(8/5) = 2`, since 8/5 is the most frequent raw coordinate. -/
theorem C4_counterexample :
    selectSlice ksC4 = 1 ∧ roundHalfEven (modeOf 0 ksC4) = 2 ∧
    selectSlice ksC4 ≠ roundHalfEven (modeOf 0 ksC4) := by
  refine ⟨by with_unfolding_all decide, by with_unfolding_all decide,
    by with_unfolding_all decide⟩

/-- C4 (amended): the slice assigned to a contour is `mode(round(K))` —
each slice-axis intrinsic coordinate is rounded (half to even) FIRST and
the integer mode is taken second: the assigned slice is one of the rounded
coordinates, it is a most frequent rounded value, and it is the smallest
one among ties. -/
theorem C4_amended (ks : List ℚ) (hne : ks ≠ []) :
    selectSlice ks ∈ ks.map roundHalfEven ∧
    (∀ v ∈ ks.map roundHalfEven,
      cnt (ks.map roundHalfEven) v ≤ cnt (ks.map roundHalfEven) (selectSlice ks)) ∧
    (∀ v ∈ ks.map roundHalfEven,
      cnt (ks.map roundHalfEven) v = cnt (ks.map roundHalfEven) (selectSlice ks) →
        selectSlice ks ≤ v) := by
  have hne2 : ks.map roundHalfEven ≠ [] := by simpa using hne
  unfold selectSlice
  exact ⟨modeOf_mem 0 _ hne2, fun v hv => modeOf_count_max 0 _ v hv,
    fun v hv ht => modeOf_min_of_tie 0 _ v hv ht⟩

/-- C4 (witness): the amended characterization at the concrete coordinate
list `ksC4`. -/
theorem C4_witness :
    selectSlice ksC4 ∈ ksC4.map roundHalfEven ∧
    (∀ v ∈ ksC4.map roundHalfEven,
      cnt (ksC4.map roundHalfEven) v ≤ cnt (ksC4.map roundHalfEven) (selectSlice ksC4)) ∧
    (∀ v ∈ ksC4.map roundHalfEven,
      cnt (ksC4.map roundHalfEven) v = cnt (ksC4.map roundHalfEven) (selectSlice ksC4) →
        selectSlice ksC4 ≤ v) :=
  C4_amended ksC4 (by with_unfolding_all decide)

/-- C5 (counterexample): `compute_box` with a box-type crop on a volume
(2×2×2) and mask (1×1×1) of DIFFERENT extents does not fail — there is no
shape check, so it returns cropped outputs. -/
theorem C5_counterexample :
    volTwo.n0 = 2 ∧ roiOne.n0 = 1 ∧
    isOkB (compute_box volTwo roiOne refUnit "box") = true := by
  refine ⟨rfl, rfl, by with_unfolding_all decide⟩

/-- C5 (amended): `compute_box` performs no extent comparison between the
volume and the mask: for ANY volume and any mask with at least one set
voxel — the shapes may disagree arbitrarily — the `"box"` crop returns
successfully (numpy slicing silently clamps each array to its own extent). -/
theorem C5_amended (vol : Arr3 ℚ) (roi : Arr3 Bool) (R : Imref3d)
    (i j k : ℕ) (hi : i < roi.n0) (hj : j < roi.n1) (hk : k < roi.n2)
    (hd : roi.data i j k = true) :
    ∃ out, compute_box vol roi R "box" = .ok out := by
  obtain ⟨bb, hbb⟩ := computeBoundingBox_isOk roi i j k hi hj hk hd
  unfold compute_box
  rw [if_pos (by decide : containsSub ("box".data) boxChars = true)]
  rw [hbb]
  rw [show parseBoxSpec ("box".data) = .ok .tight from rfl]
  exact ⟨_, rfl⟩

/-- C5 (witness): the amended theorem applied to the mismatched pair
`volTwo` (2×2×2) and `roiOne` (1×1×1, set voxel (0,0,0)). -/
theorem C5_witness :
    ∃ out, compute_box volTwo roiOne refUnit "box" = .ok out :=
  C5_amended volTwo roiOne refUnit 0 0 0 (by decide) (by decide) (by decide) rfl

/-- C6: for every mask with at least one set voxel whose tight bounding box
lies within the volume, and every requested nonnegative margin, the
clamp/shrink loop of `compute_box` terminates with a result (halving the
margin by integer floor division, falling back to the unexpanded tight box
when it bottoms out at zero), and the final box lies within the valid index
range `[0, shape[axis]-1]` on every axis. -/
theorem C6_margin_clamp_terminates
    (sh : ℕ × ℕ × ℕ) (roi : Arr3 Bool) (bb : (ℕ × ℕ) × (ℕ × ℕ) × (ℕ × ℕ)) (n : ℤ)
    (hroi : computeBoundingBox roi = .ok bb)
    (hn : 0 ≤ n)
    (h0 : bb.1.2 < sh.1) (h1 : bb.2.1.2 < sh.2.1) (h2 : bb.2.2.2 < sh.2.2) :
    ∃ nvf, shrinkLoop sh bb (n, n, n) = .ok nvf ∧
      0 ≤ (bb.1.1 : ℤ) - nvf.1 ∧ (bb.1.2 : ℤ) + nvf.1 ≤ (sh.1 : ℤ) - 1 ∧
      0 ≤ (bb.2.1.1 : ℤ) - nvf.2.1 ∧ (bb.2.1.2 : ℤ) + nvf.2.1 ≤ (sh.2.1 : ℤ) - 1 ∧
      0 ≤ (bb.2.2.1 : ℤ) - nvf.2.2 ∧ (bb.2.2.2 : ℤ) + nvf.2.2 ≤ (sh.2.2 : ℤ) - 1 := by
  clear hroi
  have main : ∀ (N : ℕ) (n : ℤ), n.toNat ≤ N → 0 ≤ n →
      ∃ nvf, shrinkLoop sh bb (n, n, n) = .ok nvf ∧
        0 ≤ (bb.1.1 : ℤ) - nvf.1 ∧ (bb.1.2 : ℤ) + nvf.1 ≤ (sh.1 : ℤ) - 1 ∧
        0 ≤ (bb.2.1.1 : ℤ) - nvf.2.1 ∧ (bb.2.1.2 : ℤ) + nvf.2.1 ≤ (sh.2.1 : ℤ) - 1 ∧
        0 ≤ (bb.2.2.1 : ℤ) - nvf.2.2 ∧ (bb.2.2.2 : ℤ) + nvf.2.2 ≤ (sh.2.2 : ℤ) - 1 := by
    intro N
    induction N with
    | zero =>
      intro n hle hnn
      have hn0 : n = 0 := by omega
      subst hn0
      rw [shrinkLoop]
      by_cases hc : checksPass sh bb (0, 0, 0) = true
      · rw [if_pos hc]
        have hcc := (checksPass_eq_true_iff sh bb (0, 0, 0)).mp hc
        refine ⟨(0, 0, 0), rfl, ?_, ?_, ?_, ?_, ?_, ?_⟩ <;> simp <;> omega
      · rw [if_neg hc]
        have hz : halveI 0 + halveI 0 + halveI 0 = 0 := by decide
        rw [if_pos hz]
        refine ⟨(0, 0, 0), rfl, ?_, ?_, ?_, ?_, ?_, ?_⟩ <;> simp <;> omega
    | succ N IH =>
      intro n hle hnn
      rw [shrinkLoop]
      by_cases hc : checksPass sh bb (n, n, n) = true
      · rw [if_pos hc]
        have hcc := (checksPass_eq_true_iff sh bb (n, n, n)).mp hc
        simp only [] at hcc
        refine ⟨(n, n, n), rfl, ?_, ?_, ?_, ?_, ?_, ?_⟩ <;> simp <;> omega
      · rw [if_neg hc]
        by_cases hz : halveI n + halveI n + halveI n = 0
        · rw [if_pos hz]
          refine ⟨(0, 0, 0), rfl, ?_, ?_, ?_, ?_, ?_, ?_⟩ <;> simp <;> omega
        · rw [if_neg hz]
          have hfix : ¬((halveI n, halveI n, halveI n) = ((n : ℤ), n, n)) := by
            intro hh
            have he : halveI n = n := congrArg Prod.fst hh
            have hn0 : n = 0 := by
              unfold halveI at he
              omega
            subst hn0
            exact hz (by decide)
          rw [dif_neg hfix]
          exact IH (halveI n) (by unfold halveI; omega) (by unfold halveI; omega)
  exact main n.toNat n le_rfl hn

/-- C6 (witness): margin 10 on the tight box `[2,2]³` inside a 5×5×5
volume; the loop halves 10 → 5 → 2 and returns the in-range margin 2. -/
theorem C6_witness :
    ∃ nvf, shrinkLoop (5, 5, 5) ((2, 2), (2, 2), (2, 2)) (10, 10, 10) = .ok nvf ∧
      0 ≤ ((2 : ℕ) : ℤ) - nvf.1 ∧ ((2 : ℕ) : ℤ) + nvf.1 ≤ ((5 : ℕ) : ℤ) - 1 ∧
      0 ≤ ((2 : ℕ) : ℤ) - nvf.2.1 ∧ ((2 : ℕ) : ℤ) + nvf.2.1 ≤ ((5 : ℕ) : ℤ) - 1 ∧
      0 ≤ ((2 : ℕ) : ℤ) - nvf.2.2 ∧ ((2 : ℕ) : ℤ) + nvf.2.2 ≤ ((5 : ℕ) : ℤ) - 1 :=
  C6_margin_clamp_terminates (5, 5, 5) roiFive ((2, 2), (2, 2), (2, 2)) 10
    (by with_unfolding_all decide) (by decide) (by decide) (by decide) (by decide)

/-- C7: `compute_box` with the crop specification `"full"` returns the
volume, the mask and the spatial reference unchanged. -/
theorem C7_full_crop_identity (vol : Arr3 ℚ) (roi : Arr3 Bool) (R : Imref3d) :
    compute_box vol roi R "full" = .ok (vol, roi, R) := rfl

/-- C8: for every orientation string that is not one of `"Axial"`,
`"Sagittal"`, `"Coronal"`, `get_polygon_mask` fails immediately with the
invalid-orientation error, producing no partial mask. -/
theorem C8_invalid_orientation (rows : List (ℚ × ℚ × ℚ × ℤ)) (R : Imref3d)
    (orient : String)
    (h1 : orient ≠ "Axial") (h2 : orient ≠ "Sagittal") (h3 : orient ≠ "Coronal") :
    get_polygon_mask rows R orient = .error .invalidOrientation := by
  unfold get_polygon_mask axesOf
  rw [if_neg h1, if_neg h2, if_neg h3]

/-- C8 (witness): the orientation `"Oblique"` is rejected. -/
theorem C8_witness :
    get_polygon_mask [] refUnit "Oblique" = .error .invalidOrientation :=
  C8_invalid_orientation [] refUnit "Oblique" (by decide) (by decide) (by decide)

/-- C9: for every crop string containing neither `"box"` nor `"full"` as a
substring, `compute_box` falls through both branches and fails with the
unbound-variable error (`new_spatial_ref` is never assigned before the
return statement). -/
theorem C9_unbound_local (vol : Arr3 ℚ) (roi : Arr3 Bool) (R : Imref3d) (s : String)
    (hbox : containsSub s.data boxChars = false)
    (hfull : containsSub s.data fullChars = false) :
    compute_box vol roi R s = .error .unboundLocal := by
  unfold compute_box
  rw [hbox, hfull]
  rfl

/-- C9 (witness): the crop string `"abc"`. -/
theorem C9_witness :
    compute_box volTwo roiOne refUnit "abc" = .error .unboundLocal :=
  C9_unbound_local volTwo roiOne refUnit "abc" (by decide) (by decide)

/-- C10: for a contour whose slice-axis intrinsic coordinates all round to
the negative index `-k` with `0 < k ≤ imageSize[2]`, `get_polygon_mask`
does not fail: the numpy negative index wraps around and the contour's
rasterized plane is silently OR-ed into slice `imageSize[2] - k` at the
opposite end of the volume (stated for a point set forming one closed
contour, on a square in-plane grid so the write broadcasts). -/
theorem C10_negative_slice_wrap (rows : List (ℚ × ℚ × ℚ × ℤ)) (R : Imref3d)
    (orient : String) (a b c : ℕ) (i0 : ℤ) (k : ℕ)
    (hax : axesOf orient = some (a, b, c))
    (hne : rows ≠ [])
    (hall : ∀ p ∈ rows, p.2.2.2 = i0)
    (hround : ∀ p ∈ contourPts rows R i0, roundHalfEven (coordOf c p) = -(k : ℤ))
    (hk0 : 0 < k) (hk2 : k ≤ R.imageSize.2.2)
    (hsq : R.imageSize.1 = R.imageSize.2.1) :
    ∃ m, get_polygon_mask rows R orient = .ok m ∧
      wrapIdx R.imageSize.2.2 (selectSlice ((contourPts rows R i0).map (coordOf c)))
        = R.imageSize.2.2 - k ∧
      ∀ r cc j, m.data r cc j = contribOf a b c R.imageSize.1 R.imageSize.2.1
        R.imageSize.2.2 (contourPts rows R i0) r cc j := by
  have hcne : contourPts rows R i0 ≠ [] := by
    rw [contourPts_all rows R i0 hall]
    simpa using hne
  have hsel : selectSlice ((contourPts rows R i0).map (coordOf c)) = -(k : ℤ) := by
    unfold selectSlice
    apply modeOf_const
    · simpa using hcne
    · intro x hx
      rw [List.map_map] at hx
      obtain ⟨p, hp, hpx⟩ := List.mem_map.mp hx
      rw [← hpx]
      exact hround p hp
  have hids := idsOf_const rows i0 hne hall
  have hwrap : wrapIdx R.imageSize.2.2 (-(k : ℤ)) = R.imageSize.2.2 - k := by
    unfold wrapIdx
    rw [if_pos (by omega : -(k : ℤ) < 0)]
    omega
  simp only [get_polygon_mask, hax, hids]
  rw [List.foldlM_cons]
  have hw : writeContour a b c R.imageSize.1 R.imageSize.2.1 R.imageSize.2.2
      (contourPts rows R i0) (fun _ _ _ => false) =
      .ok (fun r cc kk => (fun _ _ _ => false : ℕ → ℕ → ℕ → Bool) r cc kk ||
        contribOf a b c R.imageSize.1 R.imageSize.2.1 R.imageSize.2.2
          (contourPts rows R i0) r cc kk) := by
    simp only [writeContour, hsel]
    rw [if_neg (by omega : ¬((-(k : ℤ)) < -(R.imageSize.2.2 : ℤ) ∨
      (R.imageSize.2.2 : ℤ) ≤ -(k : ℤ)))]
    rw [if_neg (by omega : ¬(R.imageSize.1 ≠ R.imageSize.2.1))]
  rw [hw]
  refine ⟨⟨R.imageSize.1, R.imageSize.2.1, R.imageSize.2.2,
    fun r cc kk => false || contribOf a b c R.imageSize.1 R.imageSize.2.1
      R.imageSize.2.2 (contourPts rows R i0) r cc kk⟩, ?_, ?_, ?_⟩
  · rfl
  · rw [hsel, hwrap]
  · intro r cc j
    simp

/-- C10 (witness): `rowsC10` is an Axial square contour with constant
intrinsic slice coordinate -1 on the 2×2×2 reference: the mask build
succeeds and the plane lands on slice `2 - 1 = 1`. -/
theorem C10_witness :
    ∃ m, get_polygon_mask rowsC10 refUnit "Axial" = .ok m ∧
      wrapIdx refUnit.imageSize.2.2
        (selectSlice ((contourPts rowsC10 refUnit 0).map (coordOf 2)))
        = refUnit.imageSize.2.2 - 1 ∧
      ∀ r cc j, m.data r cc j = contribOf 0 1 2 refUnit.imageSize.1
        refUnit.imageSize.2.1 refUnit.imageSize.2.2
        (contourPts rowsC10 refUnit 0) r cc j :=
  C10_negative_slice_wrap rowsC10 refUnit "Axial" 0 1 2 0 1 (by decide)
    (by with_unfolding_all decide) (by with_unfolding_all decide)
    (by with_unfolding_all decide) (by decide) (by decide) (by decide)
